import Mathlib

/-!
Verification of the Datlake Event Distribution & Lineage Run Coordinator.

The repository ships the backend core (Run State Machine, Durable Event
Queue, Queue Worker, Event Hub) as design documentation; the frontend
components are TypeScript source.  Backend operations are therefore
modelled from the spec (each such definition says so in its doc comment);
frontend behaviour (LogsStream, JobsOverview) is embedded directly from
the TypeScript in the dashboard components file.
-/

set_option maxHeartbeats 1000000

namespace Datlake

/-! ## Run State Machine (modelled from the spec, §4.1) -/

/-- Run lifecycle states, matching the frontend type
`status: 'pending' | 'running' | 'completed' | 'failed'` in
src/frontend/src/types/index.ts and the spec's
`state ∈ {PENDING, RUNNING, COMPLETED, FAILED}`. -/
inductive RunState
  | PENDING
  | RUNNING
  | COMPLETED
  | FAILED
  deriving DecidableEq, Repr

/-- A state is terminal when no transition may leave it. -/
def RunState.isTerminal : RunState → Bool
  | .COMPLETED => true
  | .FAILED => true
  | _ => false

/-- Modelled from the spec: the reachable-transition table
PENDING→RUNNING→{COMPLETED|FAILED} (PENDING may also move directly to a
terminal state per "PENDING/RUNNING → COMPLETED (success) or FAILED"). -/
def validTransition : RunState → RunState → Bool
  | .PENDING, .RUNNING => true
  | .PENDING, .COMPLETED => true
  | .PENDING, .FAILED => true
  | .RUNNING, .COMPLETED => true
  | .RUNNING, .FAILED => true
  | _, _ => false

/-- A Run record (spec §3): `run_id`, owning `job_name`, `state`,
`ended_at` (null until terminal), `error_message` (null unless FAILED). -/
structure Run where
  run_id : Nat
  job_name : String
  idempotency_key : String
  state : RunState
  started_at : Nat
  ended_at : Option Nat
  error_message : Option String
  deriving DecidableEq, Repr

/-- A Job record (spec §3): `name` is the unique key. -/
structure Job where
  name : String
  created_at : Nat
  deriving DecidableEq, Repr

/-- Error taxonomy of the producer-facing calls (spec §7). -/
inductive SMError
  | NotFound
  | Conflict
  | InvalidTransition
  deriving DecidableEq, Repr

/-- Modelled from the spec: the Run State Machine's store — registered
jobs, run records keyed by `run_id`, a fresh-id counter, and the Durable
Event Queue contents visible to it (the state machine itself never
enqueues; the caller layer does). -/
structure Machine where
  jobs : List Job
  runs : List Run
  next_run_id : Nat
  enqueued : List Nat
  deriving Repr

def Machine.findRun (m : Machine) (rid : Nat) : Option Run :=
  m.runs.find? (fun r => r.run_id == rid)

/-- Modelled from the spec: `start_run(job_name, metadata)` — `NotFound`
if the job is unknown, `Conflict` if an identically-keyed run already
exists, else allocate a `run_id`, store the Run with state RUNNING, and
perform no enqueue (the START event is the caller layer's side effect). -/
def start_run (m : Machine) (job_name : String) (key : String) (now : Nat) :
    Except SMError (Machine × Run) :=
  if ¬ m.jobs.any (fun j => j.name == job_name) then
    .error .NotFound
  else if m.runs.any (fun r => r.job_name == job_name && r.idempotency_key == key) then
    .error .Conflict
  else
    let r : Run :=
      { run_id := m.next_run_id, job_name := job_name, idempotency_key := key,
        state := .RUNNING, started_at := now, ended_at := none, error_message := none }
    .ok ({ m with runs := m.runs ++ [r], next_run_id := m.next_run_id + 1 }, r)

/-- Modelled from the spec: the updated Run produced by a successful
transition — terminal states set `ended_at`; FAILED records the error. -/
def transitionRun (r : Run) (new_state : RunState) (now : Nat)
    (err : Option String) : Run :=
  { r with
    state := new_state,
    ended_at := if new_state.isTerminal then some now else r.ended_at,
    error_message := if new_state = .FAILED then err else r.error_message }

/-- Modelled from the spec: `apply_transition(run_id, new_state, extra)` —
`NotFound` if the run is unknown, a no-op success when re-applying the
same terminal state (duplicate-delivery tolerance), `InvalidTransition`
when `new_state` is not reachable from the current state; otherwise the
stored Run is updated and nothing else changes. -/
def apply_transition (m : Machine) (rid : Nat) (new_state : RunState)
    (now : Nat) (err : Option String) : Except SMError (Machine × Run) :=
  match m.findRun rid with
  | none => .error .NotFound
  | some r =>
    if r.state = new_state ∧ new_state.isTerminal then
      .ok (m, r)
    else if validTransition r.state new_state then
      let r2 := transitionRun r new_state now err
      .ok ({ m with runs := m.runs.map (fun x => if x.run_id == rid then r2 else x) }, r2)
    else
      .error .InvalidTransition

/-! ## Event envelope (spec §3, tags from the backend README's event list) -/

/-- The canonical tagged union of events (spec §3).  Payloads are kept to
the fields the claims mention. -/
inductive Event
  | lineage (run_id : Nat) (job_name : String) (phase : String)
  | jobStatus (job_name : String) (run_id : Nat) (status : String)
  | queueStatus (queue_name : String) (depth : Nat) (throughput : Nat)
  | systemMetric (payload : String)
  | errorEvent (message : String)
  | heartbeat
  deriving DecidableEq, Repr

/-- The wire type tag of each event kind, as listed in the backend README
(`lineage_event`, `job_status`, `queue_status`, `system_metric`, `error`,
`heartbeat`). -/
def Event.tag : Event → String
  | .lineage _ _ _ => "lineage_event"
  | .jobStatus _ _ _ => "job_status"
  | .queueStatus _ _ _ => "queue_status"
  | .systemMetric _ => "system_metric"
  | .errorEvent _ => "error"
  | .heartbeat => "heartbeat"

/-! ## Event Hub: observers, publish, zombie detection (modelled from the
spec §4.4 and the backend README's Zombie Client Detection section) -/

/-- The recorded reason an Observer was marked zombie, one per detection
criterion (the README's detection-reason histogram keys). -/
inductive ZombieReason
  | write_errors
  | missed_pings
  | queue_consistently_full
  | timeout
  | no_pong_response
  deriving DecidableEq, Repr

/-- An Observer (client connection) of the Event Hub, spec §3: bounded
outbound queue plus the health counters the zombie sweep reads. -/
structure Observer where
  client_id : Nat
  subscribed_event_types : List String
  outbound_queue : List Event
  queue_capacity : Nat
  consecutive_write_errors : Nat
  missed_pings : Nat
  consecutive_full_queue_count : Nat
  last_activity_at : Nat
  first_unanswered_ping_at : Option Nat
  deriving DecidableEq, Repr

/-- Modelled from the spec: the zombie-detection criteria.  An Observer is
marked zombie (with the first matching reason recorded) iff ANY of:
`consecutive_write_errors > 3`; `missed_pings > 3`;
`consecutive_full_queue_count >= 10`; no activity for more than 2 minutes
(120 s); no pong within 90 s of the first unanswered ping. -/
def zombieReason (now : Nat) (o : Observer) : Option ZombieReason :=
  if o.consecutive_write_errors > 3 then some .write_errors
  else if o.missed_pings > 3 then some .missed_pings
  else if o.consecutive_full_queue_count ≥ 10 then some .queue_consistently_full
  else if now - o.last_activity_at > 120 then some .timeout
  else if (o.first_unanswered_ping_at.map (fun t => decide (now - t > 90))).getD false then
    some .no_pong_response
  else none

/-- True exactly when some detection criterion fires. -/
def isZombie (now : Nat) (o : Observer) : Bool :=
  (zombieReason now o).isSome

/-- The Event Hub's state: the registry of connected observers and the
log of evicted zombies (client id and recorded reason). -/
structure Hub where
  observers : List Observer
  evicted : List (Nat × ZombieReason)
  deriving Repr

/-- Modelled from the spec: the zombie detection sweep — every Observer
satisfying a detection criterion is marked zombie, evicted from the
registry (its queue and entry released), and its reason recorded; every
other Observer stays connected, untouched. -/
def sweep (now : Nat) (h : Hub) : Hub :=
  { observers := h.observers.filter (fun o => ¬ isZombie now o),
    evicted := h.evicted ++
      (h.observers.filterMap (fun o =>
        (zombieReason now o).map (fun z => (o.client_id, z)))) }

/-- Modelled from the spec: subscription matching — an empty
`subscribed_event_types` set matches every event, a non-empty set matches
exactly the events whose tag is a member. -/
def matchesSubscription (o : Observer) (e : Event) : Bool :=
  o.subscribed_event_types.isEmpty || o.subscribed_event_types.contains e.tag

/-- Modelled from the spec: the non-blocking enqueue attempt onto one
Observer's bounded outbound queue.  If the queue has room the event is
appended (and the consecutive-full counter resets, it counts *consecutive*
full hits); if the queue is full the event is dropped for this observer
and `consecutive_full_queue_count` is incremented. -/
def tryEnqueue (e : Event) (o : Observer) : Observer :=
  if o.outbound_queue.length < o.queue_capacity then
    { o with outbound_queue := o.outbound_queue ++ [e],
             consecutive_full_queue_count := 0 }
  else
    { o with consecutive_full_queue_count := o.consecutive_full_queue_count + 1 }

/-- Modelled from the spec: `publish(event)` — for each registered
Observer whose subscription matches, attempt the non-blocking enqueue;
non-matching observers are untouched.  A total function of the registry:
it never waits on any observer. -/
def publish (e : Event) (h : Hub) : Hub :=
  { h with observers := h.observers.map (fun o =>
      if matchesSubscription o e then tryEnqueue e o else o) }

/-! ## Durable Event Queue (modelled from the spec, §4.2) -/

/-- A queued message: its per-queue `sequence_id`, payload, and the count
of failed acks (nacks) accumulated so far. -/
structure QMsg where
  seq : Nat
  event : Event
  attempts : Nat
  deriving DecidableEq, Repr

/-- Modelled from the spec: the Durable Event Queue — the ordered main
log, the leased-but-unacked (in-flight) messages hidden from other
consumers, the dead-letter queue, the monotone `sequence_id` counter and
the `max_delivery_attempts` budget. -/
structure DQueue where
  main : List QMsg
  inflight : List QMsg
  dead : List QMsg
  next_seq : Nat
  max_delivery_attempts : Nat
  deriving Repr

/-- The operations a producer or consumer can perform on the queue. -/
inductive QOp
  | enqueue (e : Event)
  | dequeue
  | ack (s : Nat)
  | nack (s : Nat)
  deriving DecidableEq, Repr

/-- Modelled from the spec: one execution step of the Durable Event
Queue.  `enqueue` appends with a fresh monotone `sequence_id`; `dequeue`
leases the head of the main log into the in-flight set; `ack`
permanently removes an in-flight message; `nack` counts a failed ack and
either returns the message for redelivery or, once the failed-ack count
exceeds `max_delivery_attempts`, moves it to the dead-letter queue. -/
def qstep (q : DQueue) : QOp → DQueue
  | .enqueue e =>
    { q with main := q.main ++ [{ seq := q.next_seq, event := e, attempts := 0 }],
             next_seq := q.next_seq + 1 }
  | .dequeue =>
    match q.main with
    | [] => q
    | m :: rest => { q with main := rest, inflight := q.inflight ++ [m] }
  | .ack s =>
    { q with inflight := q.inflight.filter (fun m => ¬ m.seq = s) }
  | .nack s =>
    match q.inflight.find? (fun m => m.seq == s) with
    | none => q
    | some m =>
      if m.attempts + 1 > q.max_delivery_attempts then
        { q with inflight := q.inflight.filter (fun x => ¬ x.seq = s),
                 dead := q.dead ++ [{ m with attempts := m.attempts + 1 }] }
      else
        { q with inflight := q.inflight.filter (fun x => ¬ x.seq = s),
                 main := q.main ++ [{ m with attempts := m.attempts + 1 }] }

/-- The sequence ids of a message list. -/
def seqs (l : List QMsg) : List Nat := l.map (fun m => m.seq)

/-- Every sequence id currently held anywhere in the queue. -/
def allSeqs (q : DQueue) : List Nat :=
  seqs q.main ++ seqs q.inflight ++ seqs q.dead

/-- Queue wellformedness: no sequence id occurs twice anywhere, and every
held id is below the fresh-id counter (ids are allocated monotonically). -/
def QWF (q : DQueue) : Prop :=
  (allSeqs q).Nodup ∧ ∀ s ∈ allSeqs q, s < q.next_seq

/-- Dead-letter containment of one sequence id: it sits in the dead-letter
queue exactly once, nowhere in the main log or the in-flight set, and
below the fresh-id counter (so no later enqueue can mint it again). -/
def DeadContained (s : Nat) (q : DQueue) : Prop :=
  (seqs q.dead).count s = 1 ∧ s ∉ seqs q.main ∧ s ∉ seqs q.inflight ∧
    s < q.next_seq

/-! ## Queue Worker failure handling (modelled from the spec, §4.3/§7) -/

/-- The outcome classes of applying one dequeued event to the Run State
Machine (spec §7 taxonomy): success, a retryable `Transient` store
failure, or a `Permanent` validation failure such as InvalidTransition. -/
inductive ApplyOutcome
  | success
  | transientFailure
  | permanentFailure (err : SMError)
  deriving DecidableEq, Repr

/-- What the worker does with the message's handle after processing. -/
inductive HandleAction
  | ackHandle
  | nackHandle (delay : Nat)
  deriving DecidableEq, Repr

/-- Worker backoff configuration: base delay and cap. -/
structure WorkerCfg where
  base_delay : Nat
  max_delay : Nat
  deriving Repr

/-- Modelled from the spec: exponential backoff from the delivery-attempt
count — base delay × 2^attempt, capped at the maximum, plus jitter. -/
def backoffDelay (cfg : WorkerCfg) (attempt : Nat) (jitter : Nat) : Nat :=
  min (cfg.base_delay * 2 ^ attempt) cfg.max_delay + jitter

/-- The full effect of processing one dequeued event: what happens to the
handle, what the worker publishes to the Event Hub, and what (if
anything) is surfaced to the producer of the event. -/
structure WorkerOutcome where
  handle_action : HandleAction
  published : List Event
  surfaced_to_producer : Option SMError
  deriving DecidableEq, Repr

/-- Modelled from the spec: the Queue Worker's per-event failure
handling.  On success the event is acked and republished live to the Hub.
On a transient apply failure the handle is nacked for redelivery with
exponential backoff and nothing reaches the producer.  On a permanent
failure (validation error) the event is acked anyway — it is not
retryable — and an ErrorEvent is published so observers see it; the
producer is never notified. -/
def processEvent (cfg : WorkerCfg) (e : Event) (attempt : Nat)
    (jitter : Nat) : ApplyOutcome → WorkerOutcome
  | .success =>
    { handle_action := .ackHandle, published := [e], surfaced_to_producer := none }
  | .transientFailure =>
    { handle_action := .nackHandle (backoffDelay cfg attempt jitter),
      published := [], surfaced_to_producer := none }
  | .permanentFailure err =>
    { handle_action := .ackHandle,
      published := [Event.errorEvent (reprStr err)],
      surfaced_to_producer := none }

/-- A queued transition request, as carried by a lineage/status event the
Queue Worker applies to the Run State Machine. -/
structure TransReq where
  run_id : Nat
  new_state : RunState
  now : Nat
  error_message : Option String
  deriving DecidableEq, Repr

/-- Modelled from the spec: the Queue Worker applying one queued event to
the Run store — a successful transition installs the updated store, a
rejected one (NotFound / InvalidTransition, handled by the worker's
failure path) leaves the store untouched. -/
def applyQueued (m : Machine) (t : TransReq) : Machine :=
  match apply_transition m t.run_id t.new_state t.now t.error_message with
  | .ok (m2, _) => m2
  | .error _ => m

/-! ## Frontend dashboard components (embedded from the TypeScript in
src/unnamed/part_002: `JobsOverview` and `LogsStream`) -/

/-- The frontend `Job` record (src/frontend/src/types/index.ts), with the
fields the dashboard uses. -/
structure FJob where
  id : String
  name : String
  status : String
  created_at : String
  updated_at : String
  deriving DecidableEq, Repr

/-- The frontend `JobEvent` SSE payload: its `job_id` and the `data`
record the handler casts to `Job`. -/
structure FJobEvent where
  type : String
  job_id : String
  data : FJob
  timestamp : String
  deriving DecidableEq, Repr

/-- The frontend `LogEntry` record. -/
structure FLogEntry where
  timestamp : String
  level : String
  message : String
  job_id : Option String
  deriving DecidableEq, Repr

/-- Embeds the `JobsOverview` SSE `onMessage` state update:
`findIndex` the job whose `id` equals the event's `job_id`; if found,
overwrite that slot with the event's `data`, else `push` it at the end. -/
def jobsUpdate (prev : List FJob) (ev : FJobEvent) : List FJob :=
  match prev.findIdx? (fun j => j.id == ev.job_id) with
  | some i => prev.set i ev.data
  | none => prev ++ [ev.data]

/-- Embeds the `LogsStream` SSE `onMessage` state update:
`[...prev, logEntry].slice(-100)` — append the parsed entry, then keep
only the last 100 entries. -/
def logsUpdate (prev : List FLogEntry) (e : FLogEntry) : List FLogEntry :=
  (prev ++ [e]).drop ((prev ++ [e]).length - 100)

/-! ## Concrete fixtures used to instantiate the theorems -/

/-- A registered sample job. -/
def sampleJob : Job := { name := "etl_a", created_at := 0 }

/-- A sample run already in the terminal COMPLETED state. -/
def sampleRunDone : Run :=
  { run_id := 1, job_name := "etl_a", idempotency_key := "k1",
    state := .COMPLETED, started_at := 0, ended_at := some 3,
    error_message := none }

/-- A sample machine holding `sampleJob` and `sampleRunDone`. -/
def sampleMachine : Machine :=
  { jobs := [sampleJob], runs := [sampleRunDone], next_run_id := 2,
    enqueued := [7] }

/-- A healthy observer subscribed to everything (empty set). -/
def obsAll : Observer :=
  { client_id := 1, subscribed_event_types := [], outbound_queue := [],
    queue_capacity := 100, consecutive_write_errors := 0, missed_pings := 0,
    consecutive_full_queue_count := 0, last_activity_at := 0,
    first_unanswered_ping_at := none }

/-- A healthy observer subscribed only to lineage events. -/
def obsLineage : Observer :=
  { obsAll with client_id := 2, subscribed_event_types := ["lineage_event"] }

/-- A non-draining observer with outbound queue capacity 2. -/
def obsSlow : Observer :=
  { obsAll with client_id := 3, queue_capacity := 2 }

/-- An observer that has hit 4 consecutive write errors. -/
def obsBrokenPipe : Observer :=
  { obsAll with client_id := 4, consecutive_write_errors := 4 }

/-- A queue whose only in-flight message has exhausted its retry budget. -/
def sampleQueue : DQueue :=
  { main := [], dead := [],
    inflight := [{ seq := 0, event := .heartbeat, attempts := 3 }],
    next_seq := 1, max_delivery_attempts := 3 }

/-! ## Theorems: Run State Machine -/

/-- Replacing the runs whose id is `rid2` (by a record that still carries
id `rid2`) does not change what a lookup for a different id finds. -/
theorem find?_replace_other (l : List Run) (rid rid2 : Nat) (r2 : Run)
    (hne : rid ≠ rid2) (hr2 : r2.run_id = rid2) :
    (l.map (fun x => if x.run_id == rid2 then r2 else x)).find?
        (fun x => x.run_id == rid)
      = l.find? (fun x => x.run_id == rid) := by
  induction l with
  | nil => rfl
  | cons h t ih =>
    rw [List.map_cons]
    by_cases hh : h.run_id = rid2
    · have hhead : (if (h.run_id == rid2) = true then r2 else h) = r2 := by
        simp [hh]
      rw [hhead]
      rw [List.find?_cons_of_neg _ (by simp [hr2, Ne.symm hne])]
      rw [List.find?_cons_of_neg _ (by simp [hh, Ne.symm hne])]
      exact ih
    · have hhead : (if (h.run_id == rid2) = true then r2 else h) = h := by
        simp [hh]
      rw [hhead]
      by_cases hr : h.run_id = rid
      · rw [List.find?_cons_of_pos _ (by simp [hr]),
          List.find?_cons_of_pos _ (by simp [hr])]
      · rw [List.find?_cons_of_neg _ (by simp [hr]),
          List.find?_cons_of_neg _ (by simp [hr])]
        exact ih

/-- From a terminal state the only successful transition is the no-op
re-application of the same terminal state, which returns the machine
unchanged; everything else is rejected as InvalidTransition. -/
theorem apply_transition_terminal (m : Machine) (rid : Nat) (r : Run)
    (hfind : m.findRun rid = some r) (hterm : r.state.isTerminal = true)
    (ns : RunState) (now : Nat) (err : Option String) :
    apply_transition m rid ns now err = .ok (m, r) ∨
    apply_transition m rid ns now err = .error .InvalidTransition := by
  unfold apply_transition
  simp only [hfind]
  split_ifs with h1 h2
  · exact Or.inl rfl
  · exfalso
    cases hs : r.state <;> rw [hs] at hterm h2 <;> cases ns <;>
      simp_all [validTransition, RunState.isTerminal]
  · exact Or.inr rfl

/-- The shape of any successful `apply_transition`: either the no-op
branch returned the machine unchanged, or exactly the runs carrying the
transitioned id were overwritten by the updated record. -/
theorem apply_transition_ok_shape (m : Machine) (rid2 : Nat) (ns : RunState)
    (now : Nat) (err : Option String) (m2 : Machine) (r2 : Run)
    (h : apply_transition m rid2 ns now err = .ok (m2, r2)) :
    m2 = m ∨ (r2.run_id = rid2 ∧
      m2 = { m with runs := m.runs.map (fun x => if x.run_id == rid2 then r2 else x) }) := by
  unfold apply_transition at h
  cases hf : m.findRun rid2 with
  | none => rw [hf] at h; exact absurd h (by simp)
  | some r =>
    have hrid : r.run_id = rid2 := by
      have := List.find?_some hf
      simpa using this
    simp only [hf] at h
    split_ifs at h with h1 h2
    · simp only [Except.ok.injEq, Prod.mk.injEq] at h
      exact Or.inl h.1.symm
    · simp only [Except.ok.injEq, Prod.mk.injEq] at h
      refine Or.inr ⟨?_, ?_⟩
      · rw [← h.2]
        exact hrid
      · rw [← h.1, ← h.2]

/-- One queued-event application leaves a terminal run untouched. -/
theorem applyQueued_terminal (m : Machine) (rid : Nat) (r : Run)
    (hfind : m.findRun rid = some r) (hterm : r.state.isTerminal = true)
    (t : TransReq) : (applyQueued m t).findRun rid = some r := by
  unfold applyQueued
  cases ha : apply_transition m t.run_id t.new_state t.now t.error_message with
  | error e => exact hfind
  | ok p =>
    obtain ⟨m2, r2⟩ := p
    by_cases hr : t.run_id = rid
    · subst hr
      rcases apply_transition_terminal m t.run_id r hfind hterm t.new_state t.now
          t.error_message with h | h
      · rw [ha] at h
        simp only [Except.ok.injEq, Prod.mk.injEq] at h
        rw [h.1]
        exact hfind
      · rw [ha] at h
        exact absurd h (by simp)
    · rcases apply_transition_ok_shape m t.run_id t.new_state t.now t.error_message
          m2 r2 ha with h | ⟨hid, h⟩
      · rw [h]; exact hfind
      · rw [h]
        show (m.runs.map fun x => if x.run_id == t.run_id then r2 else x).find?
            (fun x => x.run_id == rid) = some r
        rw [find?_replace_other m.runs rid t.run_id r2 (fun he => hr he.symm) hid]
        exact hfind

/-- Claim C2: once a Run is in a terminal state (COMPLETED or FAILED), no
sequence of queued-event applications — each of which goes through
`apply_transition` — ever changes it: the stored record, and in
particular its state, is exactly what it was before. -/
theorem run_terminal_state_frozen (m : Machine) (rid : Nat) (r : Run)
    (ops : List TransReq)
    (hfind : m.findRun rid = some r) (hterm : r.state.isTerminal = true) :
    (ops.foldl applyQueued m).findRun rid = some r := by
  induction ops generalizing m with
  | nil => exact hfind
  | cons t ts ih =>
    exact ih (applyQueued m t) (applyQueued_terminal m rid r hfind hterm t)

/-- Witness for C2: a COMPLETED run survives a RUNNING request, a FAILED
request and a repeat COMPLETED request completely unchanged. -/
theorem run_terminal_state_frozen_witness :
    (([{ run_id := 1, new_state := .RUNNING, now := 9, error_message := none },
       { run_id := 1, new_state := .FAILED, now := 9, error_message := some "x" },
       { run_id := 1, new_state := .COMPLETED, now := 9, error_message := none }] :
        List TransReq).foldl applyQueued sampleMachine).findRun 1
      = some sampleRunDone :=
  run_terminal_state_frozen sampleMachine 1 sampleRunDone _ (by decide) (by decide)

/-- Claim C3: re-applying the very terminal state a Run is already in
succeeds and is a no-op — the machine is returned unchanged together with
the unchanged record. -/
theorem reapply_terminal_noop (m : Machine) (rid : Nat) (r : Run)
    (hfind : m.findRun rid = some r) (hterm : r.state.isTerminal = true)
    (now : Nat) (err : Option String) :
    apply_transition m rid r.state now err = .ok (m, r) := by
  unfold apply_transition
  simp only [hfind]
  simp [hterm]

/-- Witness for C3: re-completing the already-COMPLETED sample run is
accepted and changes nothing. -/
theorem reapply_terminal_noop_witness :
    apply_transition sampleMachine 1 sampleRunDone.state 9 none
      = .ok (sampleMachine, sampleRunDone) :=
  reapply_terminal_noop sampleMachine 1 sampleRunDone (by decide) (by decide) 9 none

/-- Claim C7: `start_run` fails with NotFound when no registered Job has
the requested name, fails with Conflict when an identically-keyed run
already exists, and on success allocates the fresh `run_id`, stores the
Run in state RUNNING for that job, and enqueues nothing itself. -/
theorem start_run_contract (m : Machine) (job_name key : String) (now : Nat) :
    ((∀ j ∈ m.jobs, j.name ≠ job_name) →
        start_run m job_name key now = .error .NotFound) ∧
    ((∃ j ∈ m.jobs, j.name = job_name) →
     (∃ r ∈ m.runs, r.job_name = job_name ∧ r.idempotency_key = key) →
        start_run m job_name key now = .error .Conflict) ∧
    (∀ m2 r, start_run m job_name key now = .ok (m2, r) →
        r.run_id = m.next_run_id ∧ r.state = .RUNNING ∧ r.job_name = job_name ∧
        r ∈ m2.runs ∧ m2.enqueued = m.enqueued ∧ m2.jobs = m.jobs) := by
  refine ⟨?_, ?_, ?_⟩
  · intro hno
    have hany : m.jobs.any (fun j => j.name == job_name) = false := by
      simp only [List.any_eq_false]
      intro j hj
      simp [hno j hj]
    unfold start_run
    simp [hany]
  · rintro ⟨j, hj, hjn⟩ ⟨r, hr, hrn, hrk⟩
    have hany : m.jobs.any (fun j => j.name == job_name) = true := by
      simp only [List.any_eq_true]
      exact ⟨j, hj, by simp [hjn]⟩
    have hrun : m.runs.any
        (fun r => r.job_name == job_name && r.idempotency_key == key) = true := by
      simp only [List.any_eq_true]
      exact ⟨r, hr, by simp [hrn, hrk]⟩
    unfold start_run
    simp [hany, hrun]
  · intro m2 r h
    unfold start_run at h
    split_ifs at h with h1 h2
    simp only [Except.ok.injEq, Prod.mk.injEq] at h
    obtain ⟨hm2, hr⟩ := h
    rw [← hm2, ← hr]
    refine ⟨rfl, rfl, rfl, ?_, rfl, rfl⟩
    simp

/-- Witness for C7: starting a run for the registered sample job with the
already-used idempotency key is rejected as Conflict, while a fresh key
succeeds, stores a RUNNING run with the fresh id, and enqueues nothing. -/
theorem start_run_contract_witness :
    start_run sampleMachine "etl_a" "k1" 5 = .error .Conflict ∧
    (start_run sampleMachine "nope" "k9" 5 = .error .NotFound) := by
  constructor
  · exact (start_run_contract sampleMachine "etl_a" "k1" 5).2.1
      ⟨sampleJob, by decide, by decide⟩ ⟨sampleRunDone, by decide, by decide, by decide⟩
  · exact (start_run_contract sampleMachine "nope" "k9" 5).1 (by decide)

/-! ## Theorems: Event Hub -/

/-- The detection test fires exactly on the spec's five criteria. -/
theorem isZombie_iff (now : Nat) (o : Observer) :
    isZombie now o = true ↔
      (3 < o.consecutive_write_errors ∨ 3 < o.missed_pings ∨
       10 ≤ o.consecutive_full_queue_count ∨ 120 < now - o.last_activity_at ∨
       ∃ t, o.first_unanswered_ping_at = some t ∧ 90 < now - t) := by
  unfold isZombie zombieReason
  cases hp : o.first_unanswered_ping_at with
  | none => split_ifs <;> simp_all
  | some t => split_ifs <;> simp_all

/-- Claim C1: the zombie sweep evicts exactly the Observers satisfying at
least one of the five detection criteria — more than 3 consecutive write
errors (i.e. 4 or more), more than 3 missed pings, 10 or more consecutive
full-queue hits, no activity for more than 2 minutes, or no pong within
90 seconds of the first unanswered ping — recording the reason for each
eviction; every Observer satisfying none of them stays registered. -/
theorem zombie_sweep_criteria (now : Nat) (h : Hub) (o : Observer) :
    (o ∈ (sweep now h).observers ↔
      (o ∈ h.observers ∧
        ¬ (3 < o.consecutive_write_errors ∨ 3 < o.missed_pings ∨
           10 ≤ o.consecutive_full_queue_count ∨ 120 < now - o.last_activity_at ∨
           ∃ t, o.first_unanswered_ping_at = some t ∧ 90 < now - t))) ∧
    (o ∈ h.observers → ∀ z, zombieReason now o = some z →
        (o.client_id, z) ∈ (sweep now h).evicted) := by
  constructor
  · rw [show (sweep now h).observers = h.observers.filter (fun o => ¬ isZombie now o)
        from rfl]
    rw [List.mem_filter]
    rw [← isZombie_iff now o]
    simp
  · intro hmem z hz
    show (o.client_id, z) ∈ h.evicted ++ h.observers.filterMap
        (fun o => (zombieReason now o).map (fun z => (o.client_id, z)))
    refine List.mem_append_right _ ?_
    rw [List.mem_filterMap]
    exact ⟨o, hmem, by rw [hz]; rfl⟩

/-- Witness for C1: an observer with 4 consecutive write errors is evicted
with reason recorded, while a healthy all-subscriber survives the sweep. -/
theorem zombie_sweep_criteria_witness :
    (obsBrokenPipe.client_id, ZombieReason.write_errors) ∈
      (sweep 0 { observers := [obsBrokenPipe, obsAll], evicted := [] }).evicted ∧
    obsAll ∈ (sweep 0 { observers := [obsBrokenPipe, obsAll], evicted := [] }).observers := by
  constructor
  · exact (zombie_sweep_criteria 0 { observers := [obsBrokenPipe, obsAll], evicted := [] }
      obsBrokenPipe).2 (by simp) ZombieReason.write_errors (by decide)
  · exact (zombie_sweep_criteria 0 { observers := [obsBrokenPipe, obsAll], evicted := [] }
      obsAll).1.mpr ⟨by simp, by simp [obsAll]⟩

/-- Claim C8: `publish` delivers to exactly the observers whose
subscription matches — an empty `subscribed_event_types` matches every
event, a non-empty one matches precisely the events whose tag is a
member; a non-matching observer's record is left completely untouched. -/
theorem publish_delivery_iff (e : Event) (hub : Hub) (i : Nat) (o : Observer)
    (ho : hub.observers[i]? = some o)
    (hroom : o.outbound_queue.length < o.queue_capacity) :
    ((o.subscribed_event_types = [] ∨ e.tag ∈ o.subscribed_event_types) →
        (publish e hub).observers[i]? =
          some { o with outbound_queue := o.outbound_queue ++ [e],
                        consecutive_full_queue_count := 0 }) ∧
    ((o.subscribed_event_types ≠ [] ∧ e.tag ∉ o.subscribed_event_types) →
        (publish e hub).observers[i]? = some o) := by
  have hmap : (publish e hub).observers[i]? =
      some (if matchesSubscription o e then tryEnqueue e o else o) := by
    show (hub.observers.map
        (fun o => if matchesSubscription o e then tryEnqueue e o else o))[i]? = _
    rw [List.getElem?_map, ho]
    rfl
  constructor
  · intro hsub
    have hm : matchesSubscription o e = true := by
      unfold matchesSubscription
      rcases hsub with h1 | h1
      · simp [h1]
      · simp [h1]
    rw [hmap, hm]
    simp [tryEnqueue, hroom]
  · rintro ⟨h1, h2⟩
    have hm : matchesSubscription o e = false := by
      unfold matchesSubscription
      simp only [Bool.or_eq_false_iff]
      constructor
      · simpa using h1
      · simpa using h2
    rw [hmap, hm]
    simp

/-- Witness for C8: publishing a QueueStatusEvent to one observer
subscribed to only lineage events and one subscribed to everything
delivers only to the all-subscriber. -/
theorem publish_delivery_iff_witness :
    (publish (.queueStatus "lineage_events" 5 2)
        { observers := [obsLineage, obsAll], evicted := [] }).observers[1]? =
      some { obsAll with outbound_queue := [.queueStatus "lineage_events" 5 2],
                         consecutive_full_queue_count := 0 } ∧
    (publish (.queueStatus "lineage_events" 5 2)
        { observers := [obsLineage, obsAll], evicted := [] }).observers[0]? =
      some obsLineage := by
  constructor
  · exact (publish_delivery_iff (.queueStatus "lineage_events" 5 2)
      { observers := [obsLineage, obsAll], evicted := [] } 1 obsAll
      (by rfl) (by decide)).1 (Or.inl rfl)
  · exact (publish_delivery_iff (.queueStatus "lineage_events" 5 2)
      { observers := [obsLineage, obsAll], evicted := [] } 0 obsLineage
      (by rfl) (by decide)).2 ⟨by simp [obsLineage, obsAll], by decide⟩

/-- Claim C4: when a matching observer's bounded queue is already full,
`publish` — a total function that never waits on any observer — drops the
event for that observer only, leaving its queue as it was and bumping its
`consecutive_full_queue_count` by one, while any other matching observer
with room still receives the event. -/
theorem publish_full_queue_drop (e : Event) (hub : Hub) (i : Nat) (o : Observer)
    (ho : hub.observers[i]? = some o)
    (hmatch : matchesSubscription o e = true)
    (hfull : o.queue_capacity ≤ o.outbound_queue.length) :
    (publish e hub).observers[i]? =
      some { o with consecutive_full_queue_count :=
                      o.consecutive_full_queue_count + 1 } ∧
    ∀ (j : Nat) (o2 : Observer),
      hub.observers[j]? = some o2 → matchesSubscription o2 e = true →
      o2.outbound_queue.length < o2.queue_capacity →
      (publish e hub).observers[j]? =
        some { o2 with outbound_queue := o2.outbound_queue ++ [e],
                       consecutive_full_queue_count := 0 } := by
  constructor
  · show (hub.observers.map
        (fun o => if matchesSubscription o e then tryEnqueue e o else o))[i]? = _
    rw [List.getElem?_map, ho]
    show some (if matchesSubscription o e then tryEnqueue e o else o) = _
    rw [hmatch]
    simp [tryEnqueue, Nat.not_lt.mpr hfull]
  · intro j o2 ho2 hm2 hroom2
    show (hub.observers.map
        (fun o => if matchesSubscription o e then tryEnqueue e o else o))[j]? = _
    rw [List.getElem?_map, ho2]
    show some (if matchesSubscription o2 e then tryEnqueue e o2 else o2) = _
    rw [hm2]
    simp [tryEnqueue, hroom2]

/-- Witness for C4: with queue capacity 2, the third rapid publish to a
non-draining observer is dropped and its consecutive-full counter becomes
exactly 1, while the healthy all-subscriber still receives the event. -/
theorem publish_full_queue_drop_witness :
    (publish .heartbeat (publish .heartbeat (publish .heartbeat
        { observers := [obsSlow, obsAll], evicted := [] }))).observers[0]? =
      some { obsSlow with outbound_queue := [.heartbeat, .heartbeat],
                          consecutive_full_queue_count := 1 } := by
  have h := (publish_full_queue_drop .heartbeat
      (publish .heartbeat (publish .heartbeat
        { observers := [obsSlow, obsAll], evicted := [] })) 0
      { obsSlow with outbound_queue := [.heartbeat, .heartbeat],
                     consecutive_full_queue_count := 0 }
      (by decide) (by decide) (by decide)).1
  simpa using h

/-! ## Theorems: Queue Worker failure handling -/

/-- Claim C6: the Queue Worker handles failures by class — a transient
apply failure nacks the handle for redelivery with the exponential
backoff delay min(base delay · 2^attempt, cap) + jitter and publishes
nothing; a permanent validation failure acks the handle (removing the
event, never retrying it) and publishes an ErrorEvent to the Event Hub;
and no outcome of any class is ever surfaced to the producer. -/
theorem worker_failure_handling (cfg : WorkerCfg) (e : Event)
    (attempt jitter : Nat) :
    ((processEvent cfg e attempt jitter .transientFailure).handle_action =
        .nackHandle (min (cfg.base_delay * 2 ^ attempt) cfg.max_delay + jitter) ∧
     (processEvent cfg e attempt jitter .transientFailure).published = []) ∧
    (∀ err : SMError,
      (processEvent cfg e attempt jitter (.permanentFailure err)).handle_action
          = .ackHandle ∧
      ∃ msg, Event.errorEvent msg ∈
        (processEvent cfg e attempt jitter (.permanentFailure err)).published) ∧
    (∀ res : ApplyOutcome,
      (processEvent cfg e attempt jitter res).surfaced_to_producer = none) := by
  refine ⟨⟨rfl, rfl⟩, ?_, ?_⟩
  · intro err
    exact ⟨rfl, reprStr err, by simp [processEvent]⟩
  · intro res
    cases res <;> rfl

/-! ## Theorems: frontend dashboard components -/

/-- One `logsUpdate` step on the 100-entry suffix of a history equals the
100-entry suffix of the extended history. -/
theorem logsUpdate_suffix (l : List FLogEntry) (e : FLogEntry) :
    logsUpdate (l.drop (l.length - 100)) e = (l ++ [e]).drop (l.length + 1 - 100) := by
  unfold logsUpdate
  by_cases h : l.length ≤ 99
  · have h1 : l.length - 100 = 0 := by omega
    have h2 : l.length + 1 - 100 = 0 := by omega
    have h3 : (l ++ [e]).length - 100 = 0 := by
      rw [List.length_append]
      simp
      omega
    simp [h1, h2, h3]
  · have hp : (l.drop (l.length - 100)).length = 100 := by
      rw [List.length_drop]
      omega
    rw [List.length_append, hp]
    simp only [List.length_singleton]
    have h1 : (100 : Nat) + 1 - 100 = 1 := by omega
    rw [h1]
    rw [List.drop_append_of_le_length (by omega),
      List.drop_append_of_le_length (by omega)]
    rw [List.drop_drop]
    have h2 : l.length - 100 + 1 = l.length + 1 - 100 := by omega
    rw [h2]

/-- Claim C9: for every sequence of parsed log events handled by
LogsStream, the retained list is exactly the most recent 100 entries of
the full event history — so it never exceeds 100 entries, entries are
discarded oldest-first, and each step keeps the newest entry as the last
element of the list. -/
theorem logs_stream_retention (es : List FLogEntry) :
    es.foldl logsUpdate [] = es.drop (es.length - 100) ∧
    (es.foldl logsUpdate []).length ≤ 100 ∧
    ∀ (prev : List FLogEntry) (e : FLogEntry),
      (logsUpdate prev e).getLast? = some e ∧ (logsUpdate prev e).length ≤ 100 := by
  refine ⟨?_, ?_, ?_⟩
  · induction es using List.reverseRecOn with
    | nil => rfl
    | append_singleton l e ih =>
      rw [List.foldl_append, List.foldl_cons, List.foldl_nil, ih,
        logsUpdate_suffix, List.length_append]
      rfl
  · have h : es.foldl logsUpdate [] = es.drop (es.length - 100) := by
      induction es using List.reverseRecOn with
      | nil => rfl
      | append_singleton l e ih =>
        rw [List.foldl_append, List.foldl_cons, List.foldl_nil, ih,
          logsUpdate_suffix, List.length_append]
        rfl
    rw [h, List.length_drop]
    omega
  · intro prev e
    constructor
    · unfold logsUpdate
      rw [List.length_append]
      simp only [List.length_singleton]
      rw [List.drop_append_of_le_length (by omega)]
      exact List.getLast?_concat _
    · unfold logsUpdate
      rw [List.length_drop, List.length_append]
      omega

/-- Claim C10: the JobsOverview SSE handler replaces in place the first
job whose id equals the event's `job_id` when one is present — preserving
the list length, putting the event's data at exactly that position, and
leaving every other position untouched — and otherwise appends the
event's data at the end. -/
theorem jobs_overview_update (prev : List FJob) (ev : FJobEvent) :
    ((∀ j ∈ prev, j.id ≠ ev.job_id) → jobsUpdate prev ev = prev ++ [ev.data]) ∧
    (∀ i : Nat, prev.findIdx? (fun j => j.id == ev.job_id) = some i →
       (jobsUpdate prev ev).length = prev.length ∧
       (jobsUpdate prev ev)[i]? = some ev.data ∧
       (∃ j, prev[i]? = some j ∧ j.id = ev.job_id) ∧
       ∀ k : Nat, k ≠ i → (jobsUpdate prev ev)[k]? = prev[k]?) := by
  constructor
  · intro hno
    have hfind : prev.findIdx? (fun j => j.id == ev.job_id) = none := by
      rw [List.findIdx?_eq_none_iff]
      intro j hj
      simp [hno j hj]
    unfold jobsUpdate
    rw [hfind]
  · intro i hfind
    obtain ⟨hlt, hpi, _⟩ := List.findIdx?_eq_some_iff_getElem.mp hfind
    have hupd : jobsUpdate prev ev = prev.set i ev.data := by
      unfold jobsUpdate
      rw [hfind]
    refine ⟨?_, ?_, ?_, ?_⟩
    · rw [hupd, List.length_set]
    · rw [hupd]
      exact List.getElem?_set_self hlt
    · refine ⟨prev[i], ?_, ?_⟩
      · exact List.getElem?_eq_getElem hlt
      · simpa using hpi
    · intro k hk
      rw [hupd]
      exact List.getElem?_set_ne (fun he => hk he.symm)

/-- Witness for C10: an event for an id already in the list overwrites
that slot in place, and an event for a fresh id is appended. -/
theorem jobs_overview_update_witness :
    (jobsUpdate
        [{ id := "a", name := "j1", status := "running", created_at := "t0", updated_at := "t0" },
         { id := "b", name := "j2", status := "pending", created_at := "t0", updated_at := "t0" }]
        { type := "job_updated", job_id := "b",
          data := { id := "b", name := "j2", status := "completed",
                    created_at := "t0", updated_at := "t1" },
          timestamp := "t1" })[1]? =
      some { id := "b", name := "j2", status := "completed",
             created_at := "t0", updated_at := "t1" } ∧
    jobsUpdate
        [{ id := "a", name := "j1", status := "running", created_at := "t0", updated_at := "t0" }]
        { type := "job_created", job_id := "c",
          data := { id := "c", name := "j3", status := "pending",
                    created_at := "t2", updated_at := "t2" },
          timestamp := "t2" } =
      [{ id := "a", name := "j1", status := "running", created_at := "t0", updated_at := "t0" },
       { id := "c", name := "j3", status := "pending", created_at := "t2", updated_at := "t2" }] := by
  constructor
  · exact ((jobs_overview_update
      [{ id := "a", name := "j1", status := "running", created_at := "t0", updated_at := "t0" },
       { id := "b", name := "j2", status := "pending", created_at := "t0", updated_at := "t0" }]
      { type := "job_updated", job_id := "b",
        data := { id := "b", name := "j2", status := "completed",
                  created_at := "t0", updated_at := "t1" },
        timestamp := "t1" }).2 1 (by decide)).2.1
  · exact (jobs_overview_update
      [{ id := "a", name := "j1", status := "running", created_at := "t0", updated_at := "t0" }]
      { type := "job_created", job_id := "c",
        data := { id := "c", name := "j3", status := "pending",
                  created_at := "t2", updated_at := "t2" },
        timestamp := "t2" }).1 (by decide)

/-! ## Theorems: Durable Event Queue dead-lettering -/

/-- Under distinct sequence ids, `find?` on the in-flight set locates
exactly the member carrying the searched id. -/
theorem find?_of_mem_nodup (l : List QMsg) (m : QMsg)
    (hnd : (seqs l).Nodup) (hm : m ∈ l) :
    l.find? (fun x => x.seq == m.seq) = some m := by
  induction l with
  | nil => cases hm
  | cons h t ih =>
    rw [show seqs (h :: t) = h.seq :: seqs t from rfl, List.nodup_cons] at hnd
    rcases List.mem_cons.mp hm with he | ht
    · subst he
      exact List.find?_cons_of_pos _ (by simp)
    · have hmem : m.seq ∈ seqs t := List.mem_map_of_mem _ ht
      have hne : ¬ (h.seq == m.seq) = true := by
        simp only [beq_iff_eq]
        intro he
        exact hnd.1 (he ▸ hmem)
      rw [@List.find?_cons_of_neg _ (fun x => x.seq == m.seq) h t hne]
      exact ih hnd.2 ht

/-- The nack that exhausts the retry budget of a wellformed queue's
in-flight message moves it into the dead-letter queue and establishes
dead-letter containment for its sequence id. -/
theorem nack_exhausted (q : DQueue) (m : QMsg)
    (hwf : QWF q) (hm : m ∈ q.inflight)
    (hmax : q.max_delivery_attempts ≤ m.attempts) :
    DeadContained m.seq (qstep q (.nack m.seq)) := by
  obtain ⟨hnd, hbound⟩ := hwf
  have hsub : List.Sublist (seqs q.inflight) (allSeqs q) := by
    unfold allSeqs
    exact (List.sublist_append_right _ _).trans (List.sublist_append_left _ _)
  have hndInfl : (seqs q.inflight).Nodup := hnd.sublist hsub
  have hfind : q.inflight.find? (fun x => x.seq == m.seq) = some m :=
    find?_of_mem_nodup q.inflight m hndInfl hm
  have hseqInfl : m.seq ∈ seqs q.inflight := List.mem_map_of_mem _ hm
  have hndapp := hnd
  unfold allSeqs at hndapp
  rw [List.nodup_append] at hndapp
  have hdisjMIC : (seqs q.main ++ seqs q.inflight).Disjoint (seqs q.dead) := hndapp.2.2
  have hnotDead : m.seq ∉ seqs q.dead :=
    hdisjMIC (List.mem_append_right _ hseqInfl)
  have hnotMain : m.seq ∉ seqs q.main := by
    have h2 := hndapp.1
    rw [List.nodup_append] at h2
    intro hmem
    exact h2.2.2 hmem hseqInfl
  have hlt : m.seq < q.next_seq := by
    apply hbound
    unfold allSeqs
    exact List.mem_append_left _ (List.mem_append_right _ hseqInfl)
  unfold qstep
  simp only [hfind]
  rw [if_pos (by omega)]
  refine ⟨?_, hnotMain, ?_, hlt⟩
  · show (seqs (q.dead ++ [{ m with attempts := m.attempts + 1 }])).count m.seq = 1
    rw [show seqs (q.dead ++ [{ m with attempts := m.attempts + 1 }]) =
        seqs q.dead ++ [m.seq] from by simp [seqs]]
    rw [List.count_append]
    rw [List.count_eq_zero.mpr hnotDead]
    simp
  · show m.seq ∉ seqs (q.inflight.filter (fun x => ¬ x.seq = m.seq))
    simp only [seqs, List.mem_map, List.mem_filter]
    rintro ⟨x, ⟨_, hx⟩, hxs⟩
    simp only [decide_eq_true_eq] at hx
    exact hx hxs

/-- Dead-letter containment of a sequence id survives every queue
operation: enqueues mint only fresh ids, dequeue and ack never touch the
dead-letter queue, and nack can only move a *different* in-flight id. -/
theorem qstep_dead_contained (s : Nat) (q : DQueue) (op : QOp)
    (h : DeadContained s q) : DeadContained s (qstep q op) := by
  obtain ⟨hcnt, hmain, hinfl, hlt⟩ := h
  cases op with
  | enqueue e =>
    refine ⟨hcnt, ?_, hinfl, by simp [qstep]; omega⟩
    show s ∉ seqs (q.main ++ [{ seq := q.next_seq, event := e, attempts := 0 }])
    rw [show seqs (q.main ++ [{ seq := q.next_seq, event := e, attempts := 0 }]) =
        seqs q.main ++ [q.next_seq] from by simp [seqs]]
    rw [List.mem_append]
    rintro (hs | hs)
    · exact hmain hs
    · simp at hs
      omega
  | dequeue =>
    simp only [qstep]
    cases hq : q.main with
    | nil => exact ⟨hcnt, hmain, hinfl, hlt⟩
    | cons mh rest =>
      rw [hq] at hmain
      have hrest : s ∉ seqs rest := by
        intro hs
        exact hmain (by simp [seqs] at hs ⊢; tauto)
      have hne : s ≠ mh.seq := by
        intro he
        exact hmain (by simp [seqs, he])
      refine ⟨hcnt, hrest, ?_, hlt⟩
      show s ∉ seqs (q.inflight ++ [mh])
      rw [show seqs (q.inflight ++ [mh]) = seqs q.inflight ++ [mh.seq] from by
        simp [seqs]]
      rw [List.mem_append]
      rintro (hs | hs)
      · exact hinfl hs
      · simp at hs
        exact hne hs
  | ack s2 =>
    refine ⟨hcnt, hmain, ?_, hlt⟩
    show s ∉ seqs (q.inflight.filter (fun x => ¬ x.seq = s2))
    intro hs
    apply hinfl
    simp only [seqs, List.mem_map, List.mem_filter] at hs ⊢
    obtain ⟨x, ⟨hx1, _⟩, hx3⟩ := hs
    exact ⟨x, hx1, hx3⟩
  | nack s2 =>
    cases hf : q.inflight.find? (fun x => x.seq == s2) with
    | none =>
      have he : qstep q (.nack s2) = q := by simp only [qstep, hf]
      rw [he]
      exact ⟨hcnt, hmain, hinfl, hlt⟩
    | some m =>
      have hmem : m ∈ q.inflight := List.mem_of_find?_eq_some hf
      have hms : m.seq ≠ s := by
        intro he
        exact hinfl (he ▸ List.mem_map_of_mem _ hmem)
      have hrest : s ∉ seqs (q.inflight.filter (fun x => ¬ x.seq = s2)) := by
        intro hs
        apply hinfl
        simp only [seqs, List.mem_map, List.mem_filter] at hs ⊢
        obtain ⟨x, ⟨hx1, _⟩, hx3⟩ := hs
        exact ⟨x, hx1, hx3⟩
      by_cases hc : m.attempts + 1 > q.max_delivery_attempts
      · have he : qstep q (.nack s2) =
            { q with inflight := q.inflight.filter (fun x => ¬ x.seq = s2),
                     dead := q.dead ++ [{ m with attempts := m.attempts + 1 }] } := by
          simp only [qstep, hf]
          rw [if_pos hc]
        rw [he]
        refine ⟨?_, hmain, hrest, hlt⟩
        show (seqs (q.dead ++ [{ m with attempts := m.attempts + 1 }])).count s = 1
        rw [show seqs (q.dead ++ [{ m with attempts := m.attempts + 1 }]) =
            seqs q.dead ++ [m.seq] from by simp [seqs]]
        rw [List.count_append, hcnt]
        simp [Ne.symm hms]
      · have he : qstep q (.nack s2) =
            { q with inflight := q.inflight.filter (fun x => ¬ x.seq = s2),
                     main := q.main ++ [{ m with attempts := m.attempts + 1 }] } := by
          simp only [qstep, hf]
          rw [if_neg hc]
        rw [he]
        refine ⟨hcnt, ?_, hrest, hlt⟩
        show s ∉ seqs (q.main ++ [{ m with attempts := m.attempts + 1 }])
        rw [show seqs (q.main ++ [{ m with attempts := m.attempts + 1 }]) =
            seqs q.main ++ [m.seq] from by simp [seqs]]
        rw [List.mem_append]
        rintro (hs | hs)
        · exact hmain hs
        · simp at hs
          exact hms hs.symm

/-- Claim C5: once a message's failed-ack count exceeds
`max_delivery_attempts`, the triggering nack moves it to the dead-letter
queue, where it then sits exactly once after every subsequent sequence of
queue operations, and it is never again present in the main queue (nor in
flight) — it is never redelivered. -/
theorem dead_letter_containment (q : DQueue) (m : QMsg)
    (hwf : QWF q) (hm : m ∈ q.inflight)
    (hmax : q.max_delivery_attempts ≤ m.attempts) (ops : List QOp) :
    m.seq ∈ seqs (qstep q (.nack m.seq)).dead ∧
    (seqs (ops.foldl qstep (qstep q (.nack m.seq))).dead).count m.seq = 1 ∧
    m.seq ∉ seqs (ops.foldl qstep (qstep q (.nack m.seq))).main ∧
    m.seq ∉ seqs (ops.foldl qstep (qstep q (.nack m.seq))).inflight := by
  have h0 : DeadContained m.seq (qstep q (.nack m.seq)) :=
    nack_exhausted q m hwf hm hmax
  have hgen : ∀ (l : List QOp) (q0 : DQueue), DeadContained m.seq q0 →
      DeadContained m.seq (l.foldl qstep q0) := by
    intro l
    induction l with
    | nil => intro q0 h; exact h
    | cons op rest ih =>
      intro q0 h
      exact ih (qstep q0 op) (qstep_dead_contained m.seq q0 op h)
  have hfold : DeadContained m.seq (ops.foldl qstep (qstep q (.nack m.seq))) :=
    hgen ops _ h0
  refine ⟨?_, hfold.1, hfold.2.1, hfold.2.2.1⟩
  have := h0.1
  rw [← List.count_pos_iff]
  omega

/-- Witness for C5: the sample queue's exhausted in-flight message is
dead-lettered by its nack and stays dead-lettered exactly once — absent
from the main log and the in-flight set — across a subsequent enqueue,
dequeue, repeated nack and ack. -/
theorem dead_letter_containment_witness :
    (0 : Nat) ∈ seqs (qstep sampleQueue (.nack 0)).dead ∧
    (seqs ([QOp.enqueue .heartbeat, .dequeue, .nack 0, .ack 1].foldl qstep
        (qstep sampleQueue (.nack 0))).dead).count 0 = 1 ∧
    (0 : Nat) ∉ seqs ([QOp.enqueue .heartbeat, .dequeue, .nack 0, .ack 1].foldl qstep
        (qstep sampleQueue (.nack 0))).main ∧
    (0 : Nat) ∉ seqs ([QOp.enqueue .heartbeat, .dequeue, .nack 0, .ack 1].foldl qstep
        (qstep sampleQueue (.nack 0))).inflight :=
  dead_letter_containment sampleQueue
    { seq := 0, event := .heartbeat, attempts := 3 }
    ⟨by decide, by decide⟩ (by decide) (by decide)
    [QOp.enqueue .heartbeat, .dequeue, .nack 0, .ack 1]

end Datlake
